import Mathlib

/-
Verification of the reminder/due-check scheduling subsystem of a personal
email-assistant backend (`backend/reminder_service.py` and
`backend/scheduler_service.py`), as a shallow embedding in Lean 4.

Modelling conventions:
* Python `datetime` values become `DTime`: a flag recording whether a tzinfo
  is attached (the code only ever attaches `timezone.utc`) plus the timestamp
  value as an integer (the UTC instant when aware, the wall-clock reading
  when naive).
* The module-level dict `_reminders_store` becomes the list of its values in
  dict insertion order; keys are the `id` fields of the entries.
* Python exceptions become `Except Unit`; a `try/except` block becomes a
  `match` on the `Except`.
* Clock reads (`datetime.now(timezone.utc)`) and fresh uuids are passed as
  explicit parameters.
-/

namespace Serina

/-- Shallow model of a Python `datetime`: `aware` records whether a tzinfo is
attached (the code only ever attaches `timezone.utc`), `val` is the timestamp
in seconds — the UTC instant when aware, the wall-clock reading when naive. -/
structure DTime where
  aware : Bool
  val : Int
deriving DecidableEq, Repr

/-- `t.replace(tzinfo=timezone.utc)`: attaches UTC, keeping the clock reading. -/
def DTime.asUTC (t : DTime) : DTime :=
  { t with aware := true }

/-- The normalization idiom `if t.tzinfo is None: t = t.replace(tzinfo=timezone.utc)`
used by `add_reminder` and `update_reminder`. -/
def normalizeUTC (t : DTime) : DTime :=
  if t.aware then t else t.asUTC

/-- Python `<=` on datetimes: comparing a naive and an aware datetime raises
`TypeError`, modelled as `Except.error`. -/
def DTime.le? (a b : DTime) : Except Unit Bool :=
  if a.aware = b.aware then .ok (decide (a.val ≤ b.val)) else .error ()

/-- The pydantic model `reminder_service.Reminder`. `snoozeTracked` records
whether `'snooze_until'` belongs to the record's pydantic `model_fields_set`,
the only `model_fields_set` membership the code consults. -/
structure Reminder where
  id : String
  email_id : Option String
  reminder_time : DTime
  message : Option String
  created_at : DTime
  is_active : Bool
  snooze_until : Option DTime
  snoozeTracked : Bool
deriving DecidableEq, Repr

/-- The in-memory dict `_reminders_store`, as its value sequence in insertion
order; the dict keys are the `id` fields of the entries. -/
abbrev ReminderStore := List Reminder

/-- `store[r.id] = r` on a Python dict: replace in place when the key exists,
append otherwise. -/
def dictSet (store : ReminderStore) (r : Reminder) : ReminderStore :=
  if store.any (fun x => decide (x.id = r.id)) then
    store.map (fun x => if x.id = r.id then r else x)
  else store ++ [r]

/-- The record constructed by `add_reminder`: pydantic fills `is_active := True`,
`snooze_until := None`, `created_at := now`; only `email_id`, `reminder_time`
and `message` enter `model_fields_set`, so `snoozeTracked` is `false`. -/
def mkNewReminder (newId : String) (now : Int) (reminder_time : DTime)
    (email_id : Option String) (message : Option String) : Reminder :=
  { id := newId
    email_id := email_id
    reminder_time := normalizeUTC reminder_time
    message := message
    created_at := ⟨true, now⟩
    is_active := true
    snooze_until := none
    snoozeTracked := false }

/-- `add_reminder`: normalizes a naive `reminder_time` to UTC and inserts the
new record. The fresh uuid `newId` and the clock reading `now` are explicit. -/
def add_reminder (store : ReminderStore) (newId : String) (now : Int)
    (reminder_time : DTime) (email_id : Option String)
    (message : Option String) : ReminderStore × Reminder :=
  let r := mkNewReminder newId now reminder_time email_id message
  (dictSet store r, r)

/-- `get_reminder`: `_reminders_store.get(reminder_id)`. -/
def get_reminder (store : ReminderStore) (reminder_id : String) : Option Reminder :=
  store.find? (fun x => decide (x.id = reminder_id))

/-- `get_all_reminders`: all reminders, optionally only the active ones. -/
def get_all_reminders (store : ReminderStore) (active_only : Bool) : List Reminder :=
  if active_only then store.filter (fun r => r.is_active) else store

/-- The `update_data` dict of `update_reminder`: for each key, `some v` means
the key is present with value `v`; for the `snooze_until` key the dict value
is itself optional (`None` clears the field). -/
structure UpdateData where
  reminder_time : Option DTime
  message : Option String
  is_active : Option Bool
  snooze_until : Option (Option DTime)
deriving DecidableEq, Repr

/-- `if update_data:` — the dict is empty iff no key was added. -/
def UpdateData.isEmpty (u : UpdateData) : Bool :=
  u.reminder_time.isNone && u.message.isNone && u.is_active.isNone &&
    u.snooze_until.isNone

/-- `reminder.model_copy(update=update_data)` (pydantic v2): overwrite the
fields present in the dict and merge the dict's keys into `model_fields_set`. -/
def modelCopy (r : Reminder) (u : UpdateData) : Reminder :=
  { r with
    reminder_time := u.reminder_time.getD r.reminder_time
    message := match u.message with | some m => some m | none => r.message
    is_active := u.is_active.getD r.is_active
    snooze_until := match u.snooze_until with | some v => v | none => r.snooze_until
    snoozeTracked := r.snoozeTracked || u.snooze_until.isSome }

/-- The construction of `update_data` in `update_reminder`, lines 77–103 of
`reminder_service.py`. Naive datetimes are normalized to UTC. Providing
`snooze_until` also rewrites `reminder_time` to it and forces
`is_active := True`. When the `snooze_until` argument is `None`, the `elif`
guard is `'snooze_until' not in reminder.model_fields_set or
reminder.snooze_until is not None`, and its body's test
`snooze_until is None and 'snooze_until' in locals()` is always true there
(`snooze_until` is a parameter, hence always in `locals()`), so the body
writes `update_data['snooze_until'] = None` whenever the guard holds. -/
def buildUpdate (reminder : Reminder) (reminder_time : Option DTime)
    (message : Option String) (is_active : Option Bool)
    (snooze_until : Option DTime) : UpdateData :=
  let u : UpdateData :=
    { reminder_time := reminder_time.map normalizeUTC
      message := message
      is_active := is_active
      snooze_until := none }
  match snooze_until with
  | some s =>
      let s := normalizeUTC s
      { u with snooze_until := some (some s), reminder_time := some s,
               is_active := some true }
  | none =>
      if !reminder.snoozeTracked || reminder.snooze_until.isSome then
        { u with snooze_until := some none }
      else u

/-- `update_reminder`: partial update of a stored reminder. Returns the new
store and the function's return value (`None` when the id is unknown). -/
def update_reminder (store : ReminderStore) (reminder_id : String)
    (reminder_time : Option DTime) (message : Option String)
    (is_active : Option Bool) (snooze_until : Option DTime) :
    ReminderStore × Option Reminder :=
  match get_reminder store reminder_id with
  | none => (store, none)
  | some reminder =>
      let u := buildUpdate reminder reminder_time message is_active snooze_until
      if u.isEmpty then (store, some reminder)
      else
        let updated := modelCopy reminder u
        (dictSet store updated, some updated)

/-- `delete_reminder`: removes the entry when present; returns whether it was. -/
def delete_reminder (store : ReminderStore) (reminder_id : String) :
    ReminderStore × Bool :=
  if store.any (fun x => decide (x.id = reminder_id)) then
    (store.filter (fun x => decide (x.id ≠ reminder_id)), true)
  else (store, false)

/-- `check_due_reminders`: `now = datetime.now(timezone.utc)` is the aware
instant `now`. The loop keeps active reminders with `reminder_time <= now`;
a naive stored `reminder_time` makes the `<=` raise `TypeError`, which
propagates out of the function (`Except.error`). Short-circuiting matches the
source: an inactive reminder is skipped before any comparison happens. -/
def check_due_reminders : ReminderStore → Int → Except Unit (List Reminder)
  | [], _ => .ok []
  | r :: rest, now =>
      if r.is_active then
        match DTime.le? r.reminder_time ⟨true, now⟩ with
        | .error e => .error e
        | .ok true =>
            match check_due_reminders rest now with
            | .error e => .error e
            | .ok l => .ok (r :: l)
        | .ok false => check_due_reminders rest now
      else check_due_reminders rest now

/-- Effective due time (spec glossary): `snooze_until` if present, else
`reminder_time`. -/
def Reminder.effectiveDue (r : Reminder) : DTime :=
  match r.snooze_until with
  | some s => s
  | none => r.reminder_time

/-- Store entries whose `snooze_until`, when set, agrees with `reminder_time`
— the shape `update_reminder` always writes, since a snooze rewrites both
fields to the same value. -/
def Reminder.snoozeConsistent (r : Reminder) : Bool :=
  match r.snooze_until with
  | some s => decide (s = r.reminder_time)
  | none => true

/-- Timezone-awareness of one record: `reminder_time` carries a tzinfo, and so
does `snooze_until` whenever it is set. -/
def Reminder.tzAware (r : Reminder) : Bool :=
  r.reminder_time.aware && r.snooze_until.all (fun s => s.aware)

/-- Timezone-awareness invariant of the whole store. -/
def storeAware (store : ReminderStore) : Bool :=
  store.all Reminder.tzAware

/-- The key sequence of the store dict. -/
def storeIds (store : ReminderStore) : List String :=
  store.map Reminder.id

/-- `email_service.EmailMessage`, reduced to the fields the scheduler job
reads (`id`, and `subject` for logging); the remaining payload fields are
never inspected by the core. -/
structure EmailMessage where
  id : String
  subject : Option String
deriving DecidableEq, Repr

/-- The scheduler module's email-side state: the dict
`_fetched_emails_store` (as key/value pairs in insertion order) and the set
`_processed_email_ids` (as its elements in insertion order; an element is
added only when absent). -/
structure SyncState where
  fetched_emails_store : List (String × EmailMessage)
  processed_email_ids : List String
deriving DecidableEq, Repr

/-- `_fetched_emails_store[k] = v` (Python dict assignment). -/
def emailDictSet (store : List (String × EmailMessage)) (k : String)
    (v : EmailMessage) : List (String × EmailMessage) :=
  if store.any (fun p => decide (p.1 = k)) then
    store.map (fun p => if p.1 = k then (k, v) else p)
  else store ++ [(k, v)]

/-- The key sequence of the email store dict. -/
def SyncState.keys (st : SyncState) : List String :=
  st.fetched_emails_store.map Prod.fst

/-- `_fetched_emails_store.get(k)`. -/
def emailGet (store : List (String × EmailMessage)) (k : String) :
    Option (String × EmailMessage) :=
  store.find? (fun p => decide (p.1 = k))

/-- The ingestion loop of Part 1 of `_periodic_email_fetch_job`
(`scheduler_service.py` lines 43–50): each fetched message absent from
`_processed_email_ids` is stored and its id recorded; a present id is
skipped. Returns the new state, `added_count`, and the ids added. -/
def ingestEmails : SyncState → List EmailMessage → SyncState × Nat × List String
  | st, [] => (st, 0, [])
  | st, e :: rest =>
      if e.id ∈ st.processed_email_ids then ingestEmails st rest
      else
        match ingestEmails ⟨emailDictSet st.fetched_emails_store e.id e,
            st.processed_email_ids ++ [e.id]⟩ rest with
        | (st2, n, ids) => (st2, n + 1, e.id :: ids)

/-- Part 1 of `_periodic_email_fetch_job` (Mail Sync). The `fetch` argument is
the outcome of the external calls: `none` when `get_email_service()` returns
no service (the fetch part is skipped), `some (Except.error _)` when
`load_config` or `fetch_emails` raises (the `except` at line 58 swallows it),
`some (Except.ok msgs)` on success. -/
def mailSyncPhase (st : SyncState)
    (fetch : Option (Except Unit (List EmailMessage))) :
    SyncState × Nat × List String :=
  match fetch with
  | none => (st, 0, [])
  | some (.error _) => (st, 0, [])
  | some (.ok msgs) => ingestEmails st msgs

/-- The loop of Part 2 of `_periodic_email_fetch_job` over the due snapshot:
for each due reminder, emit it to the notification sink (the call sited at the
`TODO` of line 69, modelled by `notify`) and then deactivate it via
`update_reminder(reminder.id, is_active=False)`. The loop body runs inside the
single `try` of lines 63–76, so an exception from `notify` ends the loop,
keeping the store mutations and emissions made so far. Accumulates the ids
emitted to the sink. -/
def fireLoop (notify : Reminder → Except Unit Unit) :
    ReminderStore → List Reminder → List String → ReminderStore × List String
  | store, [], emitted => (store, emitted)
  | store, r :: rest, emitted =>
      match notify r with
      | .error _ => (store, emitted)
      | .ok _ =>
          let store' := (update_reminder store r.id none none (some false) none).1
          fireLoop notify store' rest (emitted ++ [r.id])

/-- Part 2 of `_periodic_email_fetch_job` (the due-check phase): take one
snapshot via `check_due_reminders`, then fire each due reminder. The whole
part sits in one `try/except`, so an error — from the snapshot or from a fire
— ends the phase without escaping the cycle. Returns the resulting store and
the ids emitted to the notification sink. -/
def dueCheckPhase (notify : Reminder → Except Unit Unit)
    (store : ReminderStore) (now : Int) : ReminderStore × List String :=
  match check_due_reminders store now with
  | .error _ => (store, [])
  | .ok due => fireLoop notify store due []

/-- A notification sink that always succeeds — the behaviour of the code as
written, whose per-reminder processing raises nothing. -/
def notifyOk : Reminder → Except Unit Unit := fun _ => .ok ()

/-- `_periodic_email_fetch_job`, one full cycle: Part 1 (Mail Sync) then
Part 2 (Due-Check), each isolated by its own `try/except`. -/
def runCycle (fetch : Option (Except Unit (List EmailMessage)))
    (notify : Reminder → Except Unit Unit)
    (st : SyncState) (store : ReminderStore) (now : Int) :
    (SyncState × Nat × List String) × (ReminderStore × List String) :=
  (mailSyncPhase st fetch, dueCheckPhase notify store now)

/-- Minimal model of the APScheduler `BackgroundScheduler` state that the
lifecycle functions consult: the `running` flag and the ids of the registered
jobs. `add_job(..., replace_existing=True)` with an existing id replaces the
job object and leaves the id registered once. -/
structure SchedState where
  running : Bool
  jobs : List String
deriving DecidableEq, Repr

/-- `_EMAIL_FETCH_JOB_ID`. -/
def EMAIL_FETCH_JOB_ID : String := "email_fetch_job"

/-- `scheduler.get_job(jid)` as a Bool: whether a job with that id exists. -/
def SchedState.get_job (s : SchedState) (jid : String) : Bool :=
  s.jobs.any (fun j => decide (j = jid))

/-- `scheduler.add_job(..., id=jid, replace_existing=True)`: registers the id
if absent; with the id present the registration list is unchanged. -/
def SchedState.add_job (s : SchedState) (jid : String) : SchedState :=
  if s.get_job jid then s else { s with jobs := s.jobs ++ [jid] }

/-- `start_scheduler_tasks`: returns early when the scheduler is running and
the job exists; otherwise adds the job when absent and starts the scheduler
when stopped. -/
def start_scheduler_tasks (s : SchedState) : SchedState :=
  if s.running && s.get_job EMAIL_FETCH_JOB_ID then s
  else
    let s1 := if !(s.get_job EMAIL_FETCH_JOB_ID) then s.add_job EMAIL_FETCH_JOB_ID
              else s
    if !s1.running then { s1 with running := true } else s1

/-- `stop_scheduler_tasks`: `scheduler.shutdown(wait=False)` when running,
otherwise only a log line. -/
def stop_scheduler_tasks (s : SchedState) : SchedState :=
  if s.running then { s with running := false } else s

/-- The record written for a fired reminder by
`update_reminder(id, is_active=False)`: `is_active` cleared; the `update_data`
dict always receives a `snooze_until` key (`None` when none is supplied), so
the stored `snooze_until` is `none` and `'snooze_until'` enters
`model_fields_set`. -/
def deactEntry (r : Reminder) : Reminder :=
  { r with is_active := false, snooze_until := none, snoozeTracked := true }

/-- The scheduler's deactivation step on the store. -/
def deactivate (store : ReminderStore) (rid : String) : ReminderStore :=
  (update_reminder store rid none none (some false) none).1

/-- `deactivate` folded over a list of ids: the store effect of processing one
due batch when every notification succeeds. -/
def deactAll (store : ReminderStore) (L : List String) : ReminderStore :=
  L.foldl deactivate store

/-- The due test applied by `check_due_reminders` to an aware store entry. -/
def duePred (now : Int) (r : Reminder) : Bool :=
  r.is_active && decide (r.reminder_time.val ≤ now)

/-- Invariant tying the email dict to the dedup set: dict keys are unique and
the two hold exactly the same ids. The two structures are only ever mutated
together, inside the ingestion loop. -/
def syncInv (st : SyncState) : Prop :=
  st.keys.Nodup ∧ st.processed_email_ids.Nodup ∧
    (∀ k ∈ st.keys, k ∈ st.processed_email_ids) ∧
    (∀ k ∈ st.processed_email_ids, k ∈ st.keys)

/-- A sequence of `add_reminder` calls (fixed clock, no email id, no message),
used to describe stores built by insertions. -/
def addAll (now : Int) : ReminderStore → List (String × DTime) → ReminderStore
  | store, [] => store
  | store, (i, t) :: rest => addAll now (add_reminder store i now t none none).1 rest

/-- A notification sink failing exactly on the reminder with id `"a"`. -/
def notifyFailA : Reminder → Except Unit Unit :=
  fun r => if r.id = "a" then .error () else .ok ()

/-! Dictionary lemmas for the reminder store. -/

theorem get_reminder_spec {store : ReminderStore} {rid : String} {r : Reminder}
    (h : get_reminder store rid = some r) : r ∈ store ∧ r.id = rid := by
  refine ⟨List.mem_of_find?_eq_some h, ?_⟩
  have := List.find?_some h
  exact of_decide_eq_true this

theorem get_reminder_none {store : ReminderStore} {rid : String}
    (h : get_reminder store rid = none) : ∀ x ∈ store, x.id ≠ rid := by
  intro x hx
  have := List.find?_eq_none.mp h x hx
  simpa using this

theorem mem_dictSet_self (store : ReminderStore) (r : Reminder) :
    r ∈ dictSet store r := by
  unfold dictSet
  split
  · next h =>
      obtain ⟨x, hx, hxid⟩ := List.any_eq_true.mp h
      exact List.mem_map.mpr ⟨x, hx, by simp [of_decide_eq_true hxid]⟩
  · simp

theorem mem_dictSet {store : ReminderStore} {r x : Reminder}
    (h : x ∈ dictSet store r) : x ∈ store ∨ x = r := by
  unfold dictSet at h
  split at h
  · obtain ⟨y, hy, hxy⟩ := List.mem_map.mp h
    by_cases hy' : y.id = r.id
    · right; rw [if_pos hy'] at hxy; exact hxy.symm
    · left; rw [if_neg hy'] at hxy; exact hxy ▸ hy
  · rcases List.mem_append.mp h with h' | h'
    · exact Or.inl h'
    · right; simpa using h'

theorem mem_dictSet_id_eq {store : ReminderStore} {r x : Reminder}
    (h : x ∈ dictSet store r) (hid : x.id = r.id) : x = r := by
  unfold dictSet at h
  split at h
  · obtain ⟨y, hy, hxy⟩ := List.mem_map.mp h
    by_cases hy' : y.id = r.id
    · rw [if_pos hy'] at hxy; exact hxy.symm
    · rw [if_neg hy'] at hxy; exact absurd (hxy ▸ hid) hy'
  · next hany =>
      rcases List.mem_append.mp h with h' | h'
      · exact absurd (List.any_eq_true.mpr ⟨x, h', decide_eq_true hid⟩) hany
      · simpa using h'

theorem find_mapSet_self (r : Reminder) (store : ReminderStore)
    (h : store.any (fun x => decide (x.id = r.id)) = true) :
    (store.map (fun x => if x.id = r.id then r else x)).find?
      (fun x => decide (x.id = r.id)) = some r := by
  induction store with
  | nil => simp at h
  | cons x xs ih =>
      by_cases hx : x.id = r.id
      · simp only [List.map_cons, if_pos hx]
        exact List.find?_cons_of_pos _ (by simp)
      · simp only [List.map_cons, if_neg hx]
        rw [List.find?_cons_of_neg _ (by simp [hx])]
        exact ih (by simpa [hx] using h)

theorem find_mapSet_ne (r : Reminder) (store : ReminderStore) {rid : String}
    (h : rid ≠ r.id) :
    (store.map (fun x => if x.id = r.id then r else x)).find?
      (fun x => decide (x.id = rid)) =
      store.find? (fun x => decide (x.id = rid)) := by
  induction store with
  | nil => rfl
  | cons x xs ih =>
      by_cases hx : x.id = r.id
      · simp only [List.map_cons, if_pos hx]
        rw [List.find?_cons_of_neg _ (by simp; exact fun he => h he.symm),
          List.find?_cons_of_neg _ (by simp [hx]; exact fun he => h he.symm), ih]
      · simp only [List.map_cons, if_neg hx]
        by_cases hx' : x.id = rid
        · rw [List.find?_cons_of_pos _ (by simp [hx']),
            List.find?_cons_of_pos _ (by simp [hx'])]
        · rw [List.find?_cons_of_neg _ (by simp [hx']),
            List.find?_cons_of_neg _ (by simp [hx']), ih]

theorem get_dictSet_self (store : ReminderStore) (r : Reminder) :
    get_reminder (dictSet store r) r.id = some r := by
  unfold get_reminder dictSet
  split
  · next h => exact find_mapSet_self r store h
  · next h =>
      rw [List.find?_append]
      have h0 : store.find? (fun x => decide (x.id = r.id)) = none := by
        rw [List.find?_eq_none]
        intro x hx
        exact List.any_eq_false.mp (Bool.eq_false_iff.mpr h) x hx
      simp [h0]

theorem get_dictSet_ne (store : ReminderStore) (r : Reminder) {rid : String}
    (h : rid ≠ r.id) :
    get_reminder (dictSet store r) rid = get_reminder store rid := by
  unfold get_reminder dictSet
  split
  · exact find_mapSet_ne r store h
  · rw [List.find?_append]
    have h1 : [r].find? (fun x => decide (x.id = rid)) = none := by
      simp; exact fun he => h he.symm
    cases h0 : store.find? (fun x => decide (x.id = rid)) <;> simp [h1]

theorem get_reminder_of_mem_nodup {store : ReminderStore} {r : Reminder}
    (hN : (storeIds store).Nodup) (hr : r ∈ store) :
    get_reminder store r.id = some r := by
  induction store with
  | nil => cases hr
  | cons x xs ih =>
      have hN2 : (x.id :: storeIds xs).Nodup := hN
      have hN' := List.nodup_cons.mp hN2
      rcases List.mem_cons.mp hr with rfl | hr'
      · exact List.find?_cons_of_pos _ (by simp)
      · have hx : x.id ≠ r.id := by
          intro he
          exact hN'.1 (he ▸ List.mem_map.mpr ⟨r, hr', rfl⟩)
        unfold get_reminder
        rw [List.find?_cons_of_neg _ (by simp; exact hx)]
        exact ih hN'.2 hr'

/-! The `update_reminder(id, is_active=False)` call issued by the scheduler
for each fired reminder, and what it does to a store. -/

theorem update_deactivate_eq (store : ReminderStore) (rid : String) :
    update_reminder store rid none none (some false) none =
      match get_reminder store rid with
      | none => (store, none)
      | some r => (dictSet store (deactEntry r), some (deactEntry r)) := by
  unfold update_reminder
  cases hg : get_reminder store rid with
  | none => rfl
  | some r =>
      simp only [buildUpdate]
      by_cases hb : (!r.snoozeTracked || r.snooze_until.isSome) = true
      · rw [if_pos hb]
        simp [UpdateData.isEmpty, modelCopy, deactEntry]
      · rw [if_neg hb]
        have hb' := Bool.eq_false_iff.mpr hb
        rw [Bool.or_eq_false_iff] at hb'
        have ht : r.snoozeTracked = true := by
          have := hb'.1; simpa using this
        have hs : r.snooze_until = none :=
          Option.not_isSome_iff_eq_none.mp (by simp [hb'.2])
        simp [UpdateData.isEmpty, modelCopy, deactEntry, ht, hs]

theorem deactivate_eq (store : ReminderStore) (rid : String) :
    deactivate store rid =
      match get_reminder store rid with
      | none => store
      | some r => dictSet store (deactEntry r) := by
  unfold deactivate
  rw [update_deactivate_eq]
  cases get_reminder store rid <;> rfl

theorem get_deactivate_ne (store : ReminderStore) {rid i : String}
    (h : rid ≠ i) :
    get_reminder (deactivate store i) rid = get_reminder store rid := by
  rw [deactivate_eq]
  cases hg : get_reminder store i with
  | none => rfl
  | some r =>
      have hid : r.id = i := (get_reminder_spec hg).2
      exact get_dictSet_ne store (deactEntry r)
        (by simpa [deactEntry, hid] using h)

theorem get_deactivate_self (store : ReminderStore) (i : String) :
    get_reminder (deactivate store i) i = (get_reminder store i).map deactEntry := by
  rw [deactivate_eq]
  cases hg : get_reminder store i with
  | none => simp [hg]
  | some r =>
      have hid : r.id = i := (get_reminder_spec hg).2
      have h1 := get_dictSet_self store (deactEntry r)
      have h2 : (deactEntry r).id = i := by simpa [deactEntry] using hid
      rw [h2] at h1
      simp [h1]

theorem mem_deactivate {x : Reminder} {store : ReminderStore} {i : String}
    (h : x ∈ deactivate store i) :
    x ∈ store ∨ ∃ y ∈ store, x = deactEntry y := by
  rw [deactivate_eq] at h
  cases hg : get_reminder store i with
  | none => rw [hg] at h; exact Or.inl h
  | some r =>
      rw [hg] at h
      rcases mem_dictSet h with h' | h'
      · exact Or.inl h'
      · exact Or.inr ⟨r, (get_reminder_spec hg).1, h'⟩

theorem mem_deactivate_id_ne {x : Reminder} {store : ReminderStore} {i : String}
    (h : x ∈ deactivate store i) (hne : x.id ≠ i) : x ∈ store := by
  rw [deactivate_eq] at h
  cases hg : get_reminder store i with
  | none => rw [hg] at h; exact h
  | some r =>
      rw [hg] at h
      rcases mem_dictSet h with h' | h'
      · exact h'
      · have hid : r.id = i := (get_reminder_spec hg).2
        exact absurd (by simpa [h', deactEntry] using hid) hne

theorem mem_deactivate_id_eq {x : Reminder} {store : ReminderStore} {i : String}
    (h : x ∈ deactivate store i) (hid : x.id = i) : x.is_active = false := by
  rw [deactivate_eq] at h
  cases hg : get_reminder store i with
  | none =>
      rw [hg] at h
      exact absurd hid (get_reminder_none hg x h)
  | some r =>
      rw [hg] at h
      have hrid : r.id = i := (get_reminder_spec hg).2
      have : x = deactEntry r :=
        mem_dictSet_id_eq h (by simpa [deactEntry, hrid] using hid)
      simp [this, deactEntry]

theorem deactAll_nil (store : ReminderStore) : deactAll store [] = store := rfl

theorem deactAll_cons (store : ReminderStore) (i : String) (L : List String) :
    deactAll store (i :: L) = deactAll (deactivate store i) L := rfl

theorem get_deactAll_not_mem {rid : String} (L : List String)
    (store : ReminderStore) (h : rid ∉ L) :
    get_reminder (deactAll store L) rid = get_reminder store rid := by
  induction L generalizing store with
  | nil => rfl
  | cons i L ih =>
      rw [deactAll_cons, ih _ (fun hm => h (List.mem_cons_of_mem i hm)),
        get_deactivate_ne store
          (fun he => h (by rw [he]; exact List.mem_cons_self i L))]

theorem get_deactAll_mem {rid : String} (L : List String) (store : ReminderStore)
    (hN : L.Nodup) (h : rid ∈ L) :
    get_reminder (deactAll store L) rid = (get_reminder store rid).map deactEntry := by
  induction L generalizing store with
  | nil => cases h
  | cons i L ih =>
      have hN' := List.nodup_cons.mp hN
      by_cases hri : rid = i
      · subst hri
        rw [deactAll_cons, get_deactAll_not_mem L _ hN'.1, get_deactivate_self]
      · have hm : rid ∈ L := by
          rcases List.mem_cons.mp h with h' | h'
          · exact absurd h' hri
          · exact h'
        rw [deactAll_cons, ih _ hN'.2 hm, get_deactivate_ne store hri]

theorem mem_deactAll_id_not_mem {x : Reminder} {L : List String}
    {store : ReminderStore} (h : x ∈ deactAll store L) (hn : x.id ∉ L) :
    x ∈ store := by
  induction L generalizing store with
  | nil => exact h
  | cons i L ih =>
      rw [deactAll_cons] at h
      have h1 : x ∈ deactivate store i :=
        ih h (fun hm => hn (List.mem_cons_of_mem i hm))
      exact mem_deactivate_id_ne h1
        (fun he => hn (by rw [he]; exact List.mem_cons_self i L))

theorem mem_deactAll_id_mem {x : Reminder} {L : List String}
    {store : ReminderStore} (h : x ∈ deactAll store L) (hid : x.id ∈ L) :
    x.is_active = false := by
  induction L generalizing store with
  | nil => cases hid
  | cons i L ih =>
      rw [deactAll_cons] at h
      by_cases hxL : x.id ∈ L
      · exact ih h hxL
      · have hxi : x.id = i := by
          rcases List.mem_cons.mp hid with h' | h'
          · exact h'
          · exact absurd h' hxL
        exact mem_deactivate_id_eq (mem_deactAll_id_not_mem h hxL) hxi

/-! Key-sequence and awareness preservation. -/

theorem storeIds_dictSet_of_mem {store : ReminderStore} {r : Reminder}
    (h : store.any (fun x => decide (x.id = r.id)) = true) :
    storeIds (dictSet store r) = storeIds store := by
  unfold dictSet
  rw [if_pos h]
  unfold storeIds
  rw [List.map_map]
  apply List.map_congr_left
  intro a _
  by_cases h' : a.id = r.id
  · simp [Function.comp, h']
  · simp [Function.comp, h']

theorem storeIds_deactivate (store : ReminderStore) (i : String) :
    storeIds (deactivate store i) = storeIds store := by
  rw [deactivate_eq]
  cases hg : get_reminder store i with
  | none => rfl
  | some r =>
      have hr := get_reminder_spec hg
      apply storeIds_dictSet_of_mem
      exact List.any_eq_true.mpr ⟨r, hr.1, by simp [deactEntry]⟩

theorem storeIds_deactAll (store : ReminderStore) (L : List String) :
    storeIds (deactAll store L) = storeIds store := by
  induction L generalizing store with
  | nil => rfl
  | cons i L ih => rw [deactAll_cons, ih, storeIds_deactivate]

theorem storeAware_mem {store : ReminderStore} (h : storeAware store = true)
    {r : Reminder} (hr : r ∈ store) : r.tzAware = true :=
  List.all_eq_true.mp h r hr

theorem tzAware_deactEntry {r : Reminder} (h : r.tzAware = true) :
    (deactEntry r).tzAware = true := by
  rw [Reminder.tzAware, Bool.and_eq_true] at h
  simp [Reminder.tzAware, deactEntry, h.1]

theorem storeAware_dictSet {store : ReminderStore} {r : Reminder}
    (h : storeAware store = true) (hr : r.tzAware = true) :
    storeAware (dictSet store r) = true := by
  rw [storeAware, List.all_eq_true]
  intro x hx
  rcases mem_dictSet hx with h' | rfl
  · exact storeAware_mem h h'
  · exact hr

theorem storeAware_deactivate {store : ReminderStore}
    (h : storeAware store = true) (i : String) :
    storeAware (deactivate store i) = true := by
  rw [deactivate_eq]
  cases hg : get_reminder store i with
  | none => exact h
  | some r =>
      exact storeAware_dictSet h
        (tzAware_deactEntry (storeAware_mem h (get_reminder_spec hg).1))

theorem storeAware_deactAll {store : ReminderStore}
    (h : storeAware store = true) (L : List String) :
    storeAware (deactAll store L) = true := by
  induction L generalizing store with
  | nil => exact h
  | cons i L ih => rw [deactAll_cons]; exact ih (storeAware_deactivate h i)

/-! The due snapshot and the firing loop. -/

theorem check_due_eq_filter {store : ReminderStore} {now : Int}
    (h : storeAware store = true) :
    check_due_reminders store now = .ok (store.filter (duePred now)) := by
  induction store with
  | nil => rfl
  | cons r rest ih =>
      rw [storeAware, List.all_cons, Bool.and_eq_true] at h
      have haw : r.reminder_time.aware = true :=
        (Bool.and_eq_true _ _ |>.mp (by rw [← Reminder.tzAware]; exact h.1)).1
      have ihr := ih h.2
      by_cases ha : r.is_active = true
      · by_cases hle : r.reminder_time.val ≤ now
        · simp [check_due_reminders, ha, DTime.le?, haw, hle, ihr,
            List.filter_cons, duePred]
        · simp [check_due_reminders, ha, DTime.le?, haw, hle, ihr,
            List.filter_cons, duePred]
      · simp [check_due_reminders, ha, ihr, List.filter_cons, duePred]

theorem fireLoop_ok_eq (store : ReminderStore) (due : List Reminder)
    (em : List String) :
    fireLoop notifyOk store due em =
      (deactAll store (due.map Reminder.id), em ++ due.map Reminder.id) := by
  induction due generalizing store em with
  | nil => simp [fireLoop, deactAll]
  | cons r rest ih =>
      simp only [fireLoop, notifyOk]
      rw [ih]
      simp [deactAll_cons, deactivate]

theorem mem_fireLoop_active {notify : Reminder → Except Unit Unit}
    {x : Reminder} {store : ReminderStore} {due : List Reminder}
    {em : List String}
    (h : x ∈ (fireLoop notify store due em).1) (ha : x.is_active = true) :
    ∃ y ∈ store, y.id = x.id ∧ y.is_active = true := by
  induction due generalizing store em with
  | nil => exact ⟨x, h, rfl, ha⟩
  | cons r rest ih =>
      simp only [fireLoop] at h
      cases hnr : notify r with
      | error e => rw [hnr] at h; exact ⟨x, h, rfl, ha⟩
      | ok u =>
          rw [hnr] at h
          obtain ⟨y, hy, hid, hact⟩ := ih h
          rcases mem_deactivate hy with hy' | ⟨z, hz, rfl⟩
          · exact ⟨y, hy', hid, hact⟩
          · exact absurd hact (by simp [deactEntry])

theorem dueCheckPhase_ok_eq {store : ReminderStore} {now : Int}
    (h : storeAware store = true) :
    dueCheckPhase notifyOk store now =
      (deactAll store ((store.filter (duePred now)).map Reminder.id),
        (store.filter (duePred now)).map Reminder.id) := by
  unfold dueCheckPhase
  rw [check_due_eq_filter h]
  simpa using fireLoop_ok_eq store (store.filter (duePred now)) []

theorem dueCheckPhase_active {notify : Reminder → Except Unit Unit}
    {store : ReminderStore} {now : Int} {x : Reminder}
    (h : x ∈ (dueCheckPhase notify store now).1) (ha : x.is_active = true) :
    ∃ y ∈ store, y.id = x.id ∧ y.is_active = true := by
  unfold dueCheckPhase at h
  cases hcd : check_due_reminders store now with
  | error e => rw [hcd] at h; exact ⟨x, h, rfl, ha⟩
  | ok due => rw [hcd] at h; exact mem_fireLoop_active h ha

theorem effectiveDue_eq_of_consistent {r : Reminder}
    (h : r.snoozeConsistent = true) : r.effectiveDue = r.reminder_time := by
  unfold Reminder.snoozeConsistent at h
  unfold Reminder.effectiveDue
  cases hs : r.snooze_until with
  | none => rfl
  | some s => rw [hs] at h; exact of_decide_eq_true h

theorem fired_mem_emissions {store : ReminderStore} {now : Int} {r : Reminder}
    (hA : storeAware store = true) (hr : r ∈ store) (hact : r.is_active = true)
    (hle : r.reminder_time.val ≤ now) :
    r.id ∈ (dueCheckPhase notifyOk store now).2 := by
  rw [dueCheckPhase_ok_eq hA]
  exact List.mem_map.mpr
    ⟨r, List.mem_filter.mpr ⟨hr, by simp [duePred, hact, hle]⟩, rfl⟩

/-! Claim theorems. -/

/-- C1: for every reminder whose effective due time is at or before the
current instant and whose active flag is true, executing the cycle's
due-check phase twice in sequence fires (emits to the notification sink and
deactivates) that reminder exactly once: the first execution emits its id
exactly once and sets `is_active := false` in the store, the second
execution's emissions do not contain it, and no operation of the due-check
phase ever re-activates a reminder. -/
theorem due_check_fires_at_most_once
    (store : ReminderStore) (now now' : Int) (r : Reminder)
    (hN : (storeIds store).Nodup) (hA : storeAware store = true)
    (hr : r ∈ store) (hact : r.is_active = true)
    (hsc : r.snoozeConsistent = true)
    (hdue : r.effectiveDue.val ≤ now) :
    ((dueCheckPhase notifyOk store now).2.count r.id = 1) ∧
    (∃ x, get_reminder (dueCheckPhase notifyOk store now).1 r.id = some x ∧
      x.is_active = false) ∧
    ((dueCheckPhase notifyOk (dueCheckPhase notifyOk store now).1 now').2.count
      r.id = 0) ∧
    (∀ (notify : Reminder → Except Unit Unit) (s : ReminderStore) (n : Int)
      (x : Reminder), x ∈ (dueCheckPhase notify s n).1 → x.is_active = true →
      ∃ y ∈ s, y.id = x.id ∧ y.is_active = true) := by
  have hle : r.reminder_time.val ≤ now := by
    rw [← effectiveDue_eq_of_consistent hsc]; exact hdue
  have hphase : dueCheckPhase notifyOk store now =
      (deactAll store ((store.filter (duePred now)).map Reminder.id),
        (store.filter (duePred now)).map Reminder.id) := dueCheckPhase_ok_eq hA
  have hrdue : r ∈ store.filter (duePred now) :=
    List.mem_filter.mpr ⟨hr, by simp [duePred, hact, hle]⟩
  have hNdue : ((store.filter (duePred now)).map Reminder.id).Nodup :=
    List.Sublist.nodup (List.Sublist.map Reminder.id (List.filter_sublist store)) hN
  have hmemIds : r.id ∈ (store.filter (duePred now)).map Reminder.id :=
    List.mem_map.mpr ⟨r, hrdue, rfl⟩
  refine ⟨?_, ?_, ?_, ?_⟩
  · rw [hphase]
    exact List.count_eq_one_of_mem hNdue hmemIds
  · rw [hphase]
    refine ⟨deactEntry r, ?_, by simp [deactEntry]⟩
    have hget : get_reminder store r.id = some r :=
      get_reminder_of_mem_nodup hN hr
    have := get_deactAll_mem ((store.filter (duePred now)).map Reminder.id)
      store hNdue hmemIds
    rw [hget] at this
    simpa using this
  · rw [hphase]
    have hA1 : storeAware
        (deactAll store ((store.filter (duePred now)).map Reminder.id)) = true :=
      storeAware_deactAll hA _
    rw [dueCheckPhase_ok_eq hA1]
    rw [List.count_eq_zero]
    intro hmem
    obtain ⟨x, hx, hxid⟩ := List.mem_map.mp hmem
    have hx' := List.mem_filter.mp hx
    have hxact : x.is_active = true := (Bool.and_eq_true _ _ |>.mp hx'.2).1
    have : x.is_active = false :=
      mem_deactAll_id_mem hx'.1 (hxid ▸ hmemIds)
    rw [this] at hxact
    cases hxact
  · intro notify s n x hx ha
    exact dueCheckPhase_active hx ha

/-- Witness for C1 at a concrete one-reminder store, `now = 10`, `now' = 11`. -/
theorem due_check_fires_at_most_once_witness :
    ((dueCheckPhase notifyOk
        [⟨"r", none, ⟨true, 5⟩, none, ⟨true, 0⟩, true, none, false⟩] 10).2.count
      "r" = 1) ∧
    (∃ x, get_reminder (dueCheckPhase notifyOk
        [⟨"r", none, ⟨true, 5⟩, none, ⟨true, 0⟩, true, none, false⟩] 10).1
        "r" = some x ∧ x.is_active = false) ∧
    ((dueCheckPhase notifyOk (dueCheckPhase notifyOk
        [⟨"r", none, ⟨true, 5⟩, none, ⟨true, 0⟩, true, none, false⟩] 10).1
        11).2.count "r" = 0) ∧
    (∀ (notify : Reminder → Except Unit Unit) (s : ReminderStore) (n : Int)
      (x : Reminder), x ∈ (dueCheckPhase notify s n).1 → x.is_active = true →
      ∃ y ∈ s, y.id = x.id ∧ y.is_active = true) :=
  due_check_fires_at_most_once
    [⟨"r", none, ⟨true, 5⟩, none, ⟨true, 0⟩, true, none, false⟩] 10 11
    ⟨"r", none, ⟨true, 5⟩, none, ⟨true, 0⟩, true, none, false⟩
    (by decide) (by decide) (by decide) (by decide) (by decide) (by decide)

/-! Mail-sync ingestion lemmas. -/

theorem find_emailMapSet_ne (store : List (String × EmailMessage))
    (k' : String) (v : EmailMessage) {k : String} (h : k ≠ k') :
    (store.map (fun p => if p.1 = k' then (k', v) else p)).find?
      (fun p => decide (p.1 = k)) = store.find? (fun p => decide (p.1 = k)) := by
  induction store with
  | nil => rfl
  | cons p ps ih =>
      by_cases hp : p.1 = k'
      · simp only [List.map_cons, if_pos hp]
        rw [List.find?_cons_of_neg _ (by simp; exact fun he => h he.symm),
          List.find?_cons_of_neg _ (by simp [hp]; exact fun he => h he.symm), ih]
      · simp only [List.map_cons, if_neg hp]
        by_cases hk : p.1 = k
        · rw [List.find?_cons_of_pos _ (by simp [hk]),
            List.find?_cons_of_pos _ (by simp [hk])]
        · rw [List.find?_cons_of_neg _ (by simp [hk]),
            List.find?_cons_of_neg _ (by simp [hk]), ih]

theorem emailGet_dictSet_ne (store : List (String × EmailMessage))
    (k' : String) (v : EmailMessage) {k : String} (h : k ≠ k') :
    emailGet (emailDictSet store k' v) k = emailGet store k := by
  unfold emailGet emailDictSet
  split
  · exact find_emailMapSet_ne store k' v h
  · rw [List.find?_append]
    have h1 : [(k', v)].find? (fun p => decide (p.1 = k)) = none := by
      simp; exact fun he => h he.symm
    cases h0 : store.find? (fun p => decide (p.1 = k)) <;> simp [h1]

theorem ingest_processed_eq (L : List EmailMessage) (st : SyncState) :
    (ingestEmails st L).1.processed_email_ids =
      st.processed_email_ids ++ (ingestEmails st L).2.2 := by
  induction L generalizing st with
  | nil => simp [ingestEmails]
  | cons e rest ih =>
      simp only [ingestEmails]
      by_cases he : e.id ∈ st.processed_email_ids
      · rw [if_pos he]; exact ih st
      · rw [if_neg he]
        rcases hrec : ingestEmails ⟨emailDictSet st.fetched_emails_store e.id e,
            st.processed_email_ids ++ [e.id]⟩ rest with ⟨st2, n, ids⟩
        have h2 := ih ⟨emailDictSet st.fetched_emails_store e.id e,
            st.processed_email_ids ++ [e.id]⟩
        rw [hrec] at h2
        simp only [hrec]
        simp only [] at h2
        rw [h2, List.append_assoc, List.singleton_append]

theorem ingest_seen {k : String} (L : List EmailMessage) (st : SyncState)
    (h : k ∈ st.processed_email_ids) :
    k ∉ (ingestEmails st L).2.2 ∧
      emailGet (ingestEmails st L).1.fetched_emails_store k =
        emailGet st.fetched_emails_store k := by
  induction L generalizing st with
  | nil => simp [ingestEmails]
  | cons e rest ih =>
      simp only [ingestEmails]
      by_cases he : e.id ∈ st.processed_email_ids
      · rw [if_pos he]; exact ih st h
      · rw [if_neg he]
        rcases hrec : ingestEmails ⟨emailDictSet st.fetched_emails_store e.id e,
            st.processed_email_ids ++ [e.id]⟩ rest with ⟨st2, n, ids⟩
        have hne : e.id ≠ k := fun hek => he (hek ▸ h)
        have ih' := ih ⟨emailDictSet st.fetched_emails_store e.id e,
            st.processed_email_ids ++ [e.id]⟩ (List.mem_append_left _ h)
        rw [hrec] at ih'
        simp only [hrec]
        constructor
        · intro hk
          rcases List.mem_cons.mp hk with h' | h'
          · exact hne h'.symm
          · exact ih'.1 h'
        · simp only [] at ih' ⊢
          rw [ih'.2, emailGet_dictSet_ne _ _ _ (fun hk => hne hk.symm)]

theorem ingest_adds {m : EmailMessage} (L : List EmailMessage) (st : SyncState)
    (h : m ∈ L) :
    m.id ∈ (ingestEmails st L).1.processed_email_ids := by
  induction L generalizing st with
  | nil => cases h
  | cons e rest ih =>
      simp only [ingestEmails]
      by_cases he : e.id ∈ st.processed_email_ids
      · rw [if_pos he]
        rcases List.mem_cons.mp h with rfl | h'
        · rw [ingest_processed_eq]; exact List.mem_append_left _ he
        · exact ih st h'
      · rw [if_neg he]
        rcases hrec : ingestEmails ⟨emailDictSet st.fetched_emails_store e.id e,
            st.processed_email_ids ++ [e.id]⟩ rest with ⟨st2, n, ids⟩
        have h2 := ingest_processed_eq rest
          ⟨emailDictSet st.fetched_emails_store e.id e,
            st.processed_email_ids ++ [e.id]⟩
        rw [hrec] at h2
        have h3 := fun hm => ih ⟨emailDictSet st.fetched_emails_store e.id e,
            st.processed_email_ids ++ [e.id]⟩ hm
        simp only [hrec] at h3 ⊢
        rcases List.mem_cons.mp h with rfl | h'
        · simp only [] at h2 ⊢
          rw [h2]
          exact List.mem_append_left _
            (List.mem_append_right _ (List.mem_singleton.mpr rfl))
        · exact h3 h'

theorem ingest_inv (L : List EmailMessage) (st : SyncState) (h : syncInv st) :
    syncInv (ingestEmails st L).1 := by
  induction L generalizing st with
  | nil => exact h
  | cons e rest ih =>
      simp only [ingestEmails]
      by_cases he : e.id ∈ st.processed_email_ids
      · rw [if_pos he]; exact ih st h
      · rw [if_neg he]
        rcases hrec : ingestEmails ⟨emailDictSet st.fetched_emails_store e.id e,
            st.processed_email_ids ++ [e.id]⟩ rest with ⟨st2, n, ids⟩
        simp only [hrec]
        obtain ⟨h1, h2, h3, h4⟩ := h
        have hkey : e.id ∉ st.keys := fun hk => he (h3 _ hk)
        have happ : emailDictSet st.fetched_emails_store e.id e =
            st.fetched_emails_store ++ [(e.id, e)] := by
          unfold emailDictSet
          rw [if_neg]
          intro hany
          obtain ⟨p, hp, hpe⟩ := List.any_eq_true.mp hany
          exact hkey (List.mem_map.mpr ⟨p, hp, of_decide_eq_true hpe⟩)
        have hkeys : (⟨emailDictSet st.fetched_emails_store e.id e,
            st.processed_email_ids ++ [e.id]⟩ : SyncState).keys =
            st.keys ++ [e.id] := by
          simp [SyncState.keys, happ]
        have hinv' : syncInv ⟨emailDictSet st.fetched_emails_store e.id e,
            st.processed_email_ids ++ [e.id]⟩ := by
          refine ⟨?_, ?_, ?_, ?_⟩
          · rw [hkeys, List.nodup_append]
            exact ⟨h1, List.nodup_singleton _,
              fun a ha hb => hkey ((List.mem_singleton.mp hb) ▸ ha)⟩
          · rw [List.nodup_append]
            exact ⟨h2, List.nodup_singleton _,
              fun a ha hb => he ((List.mem_singleton.mp hb) ▸ ha)⟩
          · intro k hk
            rw [hkeys] at hk
            rcases List.mem_append.mp hk with hk' | hk'
            · exact List.mem_append_left _ (h3 _ hk')
            · exact List.mem_append_right _ hk'
          · intro k hk
            rw [hkeys]
            rcases List.mem_append.mp hk with hk' | hk'
            · exact List.mem_append_left _ (h4 _ hk')
            · exact List.mem_append_right _ hk'
        have := ih _ hinv'
        rw [hrec] at this
        exact this

/-- C2: for every provider message id, running the Mail Sync phase of two
successive cycles whose fetches both return a message with that id leaves
exactly one stored copy of a message with that id (its key occurs once in the
store), the second phase's newly-ingested ids do not include it, and for that
id the second phase changes neither the stored entry nor the dedup cache's
count of the id. -/
theorem mail_sync_dedup_idempotent
    (st : SyncState) (L1 L2 : List EmailMessage) (mid : String)
    (hinv : syncInv st)
    (h1 : ∃ m ∈ L1, m.id = mid) (_h2 : ∃ m ∈ L2, m.id = mid) :
    ((mailSyncPhase (mailSyncPhase st (some (.ok L1))).1
        (some (.ok L2))).1.keys.count mid = 1) ∧
    (mid ∉ (mailSyncPhase (mailSyncPhase st (some (.ok L1))).1
        (some (.ok L2))).2.2) ∧
    (emailGet (mailSyncPhase (mailSyncPhase st (some (.ok L1))).1
        (some (.ok L2))).1.fetched_emails_store mid =
      emailGet (mailSyncPhase st (some (.ok L1))).1.fetched_emails_store mid) ∧
    ((mailSyncPhase (mailSyncPhase st (some (.ok L1))).1
        (some (.ok L2))).1.processed_email_ids.count mid =
      (mailSyncPhase st (some (.ok L1))).1.processed_email_ids.count mid) := by
  obtain ⟨m1, hm1, hid1⟩ := h1
  have hphase1 : mailSyncPhase st (some (.ok L1)) = ingestEmails st L1 := rfl
  have hphase2 : ∀ s, mailSyncPhase s (some (.ok L2)) = ingestEmails s L2 :=
    fun _ => rfl
  rw [hphase1, hphase2]
  have hmem1 : mid ∈ (ingestEmails st L1).1.processed_email_ids :=
    hid1 ▸ ingest_adds L1 st hm1
  have hinv1 : syncInv (ingestEmails st L1).1 := ingest_inv L1 st hinv
  have hseen := ingest_seen L2 (ingestEmails st L1).1 hmem1
  have hinv2 : syncInv (ingestEmails (ingestEmails st L1).1 L2).1 :=
    ingest_inv L2 _ hinv1
  have hmem2 : mid ∈ (ingestEmails (ingestEmails st L1).1 L2).1.processed_email_ids := by
    rw [ingest_processed_eq]
    exact List.mem_append_left _ hmem1
  refine ⟨?_, hseen.1, hseen.2, ?_⟩
  · exact List.count_eq_one_of_mem hinv2.1 (hinv2.2.2.2 _ hmem2)
  · rw [ingest_processed_eq L2, List.count_append,
      List.count_eq_zero.mpr hseen.1]
    simp

/-- Witness for C2: the empty state, both fetches returning the message with
id `"x"`. -/
theorem mail_sync_dedup_idempotent_witness :
    ((mailSyncPhase (mailSyncPhase ⟨[], []⟩ (some (.ok [⟨"x", none⟩]))).1
        (some (.ok [⟨"x", none⟩]))).1.keys.count "x" = 1) ∧
    ("x" ∉ (mailSyncPhase (mailSyncPhase ⟨[], []⟩ (some (.ok [⟨"x", none⟩]))).1
        (some (.ok [⟨"x", none⟩]))).2.2) ∧
    (emailGet (mailSyncPhase (mailSyncPhase ⟨[], []⟩
        (some (.ok [⟨"x", none⟩]))).1
        (some (.ok [⟨"x", none⟩]))).1.fetched_emails_store "x" =
      emailGet (mailSyncPhase ⟨[], []⟩
        (some (.ok [⟨"x", none⟩]))).1.fetched_emails_store "x") ∧
    ((mailSyncPhase (mailSyncPhase ⟨[], []⟩ (some (.ok [⟨"x", none⟩]))).1
        (some (.ok [⟨"x", none⟩]))).1.processed_email_ids.count "x" =
      (mailSyncPhase ⟨[], []⟩
        (some (.ok [⟨"x", none⟩]))).1.processed_email_ids.count "x") :=
  mail_sync_dedup_idempotent ⟨[], []⟩ [⟨"x", none⟩] [⟨"x", none⟩] "x"
    (by refine ⟨?_, ?_, ?_, ?_⟩ <;> simp [SyncState.keys])
    ⟨⟨"x", none⟩, by simp⟩ ⟨⟨"x", none⟩, by simp⟩

/-- C3: if the external mail-fetch call raises during a cycle, the cycle does
not propagate the exception (the job is a total function of the failure
outcome): the sync phase of that cycle leaves the email state unchanged and
ingests zero messages, the due-check phase runs exactly as it would alone,
and a due active reminder is still fired (its id is emitted to the sink). -/
theorem fetch_failure_isolated
    (st : SyncState) (store : ReminderStore) (now : Int) (e : Unit)
    (notify : Reminder → Except Unit Unit) (r : Reminder)
    (hA : storeAware store = true) (hr : r ∈ store)
    (hact : r.is_active = true) (hle : r.reminder_time.val ≤ now) :
    ((runCycle (some (.error e)) notify st store now).1 = (st, 0, [])) ∧
    ((runCycle (some (.error e)) notify st store now).2 =
      dueCheckPhase notify store now) ∧
    (r.id ∈ (runCycle (some (.error e)) notifyOk st store now).2.2) := by
  refine ⟨rfl, rfl, ?_⟩
  exact fired_mem_emissions hA hr hact hle

/-- Witness for C3: a failing fetch over a one-reminder store at `now = 10`. -/
theorem fetch_failure_isolated_witness :
    ((runCycle (some (.error ())) notifyOk ⟨[], []⟩
        [⟨"r", none, ⟨true, 5⟩, none, ⟨true, 0⟩, true, none, false⟩] 10).1 =
      (⟨[], []⟩, 0, [])) ∧
    ((runCycle (some (.error ())) notifyOk ⟨[], []⟩
        [⟨"r", none, ⟨true, 5⟩, none, ⟨true, 0⟩, true, none, false⟩] 10).2 =
      dueCheckPhase notifyOk
        [⟨"r", none, ⟨true, 5⟩, none, ⟨true, 0⟩, true, none, false⟩] 10) ∧
    ("r" ∈ (runCycle (some (.error ())) notifyOk ⟨[], []⟩
        [⟨"r", none, ⟨true, 5⟩, none, ⟨true, 0⟩, true, none, false⟩] 10).2.2) :=
  fetch_failure_isolated ⟨[], []⟩
    [⟨"r", none, ⟨true, 5⟩, none, ⟨true, 0⟩, true, none, false⟩] 10 () notifyOk
    ⟨"r", none, ⟨true, 5⟩, none, ⟨true, 0⟩, true, none, false⟩
    (by decide) (by decide) (by decide) (by decide)

theorem update_snooze_eq (store : ReminderStore) (rid : String) (T : DTime)
    {r0 : Reminder} (h : get_reminder store rid = some r0) :
    update_reminder store rid none none none (some T) =
      (dictSet store { r0 with
          reminder_time := normalizeUTC T
          is_active := true
          snooze_until := some (normalizeUTC T)
          snoozeTracked := true },
        some { r0 with
          reminder_time := normalizeUTC T
          is_active := true
          snooze_until := some (normalizeUTC T)
          snoozeTracked := true }) := by
  unfold update_reminder
  rw [h]
  simp [buildUpdate, UpdateData.isEmpty, modelCopy]

/-- C4: for every stored reminder id and timestamp `T`, `update_reminder`
with `snooze_until = T` returns a reminder whose `snooze_until` equals `T`
normalized to UTC (equal to `T` itself whenever `T` carries a timezone),
whose `reminder_time` is rewritten to the same value, and whose active flag
is forced to `true` regardless of the prior state; the store holds the
updated record under the same id. -/
theorem update_snooze_rewrites_and_reactivates
    (store : ReminderStore) (rid : String) (T : DTime) (r0 : Reminder)
    (h : get_reminder store rid = some r0) :
    ∃ r', (update_reminder store rid none none none (some T)).2 = some r' ∧
      r'.snooze_until = some (normalizeUTC T) ∧
      r'.reminder_time = normalizeUTC T ∧
      r'.is_active = true ∧
      (T.aware = true → r'.snooze_until = some T) ∧
      get_reminder (update_reminder store rid none none none (some T)).1 rid =
        some r' := by
  have heq := update_snooze_eq store rid T h
  have hid : r0.id = rid := (get_reminder_spec h).2
  refine ⟨{ r0 with
      reminder_time := normalizeUTC T
      is_active := true
      snooze_until := some (normalizeUTC T)
      snoozeTracked := true },
    by rw [heq], rfl, rfl, rfl, ?_, ?_⟩
  · intro ha
    simp [normalizeUTC, ha]
  · rw [heq]
    have := get_dictSet_self store
      { r0 with
        reminder_time := normalizeUTC T
        is_active := true
        snooze_until := some (normalizeUTC T)
        snoozeTracked := true }
    simpa [hid] using this

/-- Witness for C4 at a previously fired (inactive) stored reminder,
showing the explicit re-activation path. -/
theorem update_snooze_rewrites_and_reactivates_witness :
    ∃ r', (update_reminder
        [⟨"r", none, ⟨true, 5⟩, none, ⟨true, 0⟩, false, none, true⟩]
        "r" none none none (some ⟨true, 99⟩)).2 = some r' ∧
      r'.snooze_until = some (normalizeUTC ⟨true, 99⟩) ∧
      r'.reminder_time = normalizeUTC ⟨true, 99⟩ ∧
      r'.is_active = true ∧
      ((⟨true, 99⟩ : DTime).aware = true → r'.snooze_until = some ⟨true, 99⟩) ∧
      get_reminder (update_reminder
        [⟨"r", none, ⟨true, 5⟩, none, ⟨true, 0⟩, false, none, true⟩]
        "r" none none none (some ⟨true, 99⟩)).1 "r" = some r' :=
  update_snooze_rewrites_and_reactivates
    [⟨"r", none, ⟨true, 5⟩, none, ⟨true, 0⟩, false, none, true⟩]
    "r" ⟨true, 99⟩ ⟨"r", none, ⟨true, 5⟩, none, ⟨true, 0⟩, false, none, true⟩
    (by decide)

/-- C5 counterexample: a stored reminder snoozed until 50; an update passing
only `message` clears `snooze_until` (the stored value becomes `None`), so
the claim that such an update leaves `snooze_until` unchanged is false. -/
theorem update_only_message_clears_snooze_cex :
    ((⟨"r1", none, ⟨true, 50⟩, none, ⟨true, 0⟩, true, some ⟨true, 50⟩, true⟩ :
        Reminder).snooze_until = some ⟨true, 50⟩) ∧
    ((get_reminder (update_reminder
        [⟨"r1", none, ⟨true, 50⟩, none, ⟨true, 0⟩, true, some ⟨true, 50⟩, true⟩]
        "r1" none (some "x") none none).1 "r1").map Reminder.snooze_until =
      some none) := by decide

/-- C5 amended: any `update_reminder` call whose `snooze_until` argument is
`None` — which is what an update passing only `message` or only `is_active`
passes, since the parameter defaults to `None` and the code's
`'snooze_until' in locals()` test is always true — writes `snooze_until =
None` into a reminder whose `snooze_until` was set; so a set `snooze_until`
is cleared by every update that does not re-supply it. -/
theorem update_with_none_snooze_clears
    (store : ReminderStore) (rid : String) (r0 : Reminder)
    (rt : Option DTime) (msg : Option String) (act : Option Bool)
    (h : get_reminder store rid = some r0)
    (hs : r0.snooze_until.isSome = true) :
    ∃ r', (update_reminder store rid rt msg act none).2 = some r' ∧
      r'.snooze_until = none ∧
      get_reminder (update_reminder store rid rt msg act none).1 rid =
        some r' := by
  have hid : r0.id = rid := (get_reminder_spec h).2
  unfold update_reminder
  rw [h]
  have hcond : (!r0.snoozeTracked || r0.snooze_until.isSome) = true := by
    simp [hs]
  simp only [buildUpdate, hcond, if_true, if_pos]
  have hne : (UpdateData.isEmpty
      { reminder_time := rt.map normalizeUTC
        message := msg
        is_active := act
        snooze_until := some none }) = false := by
    simp [UpdateData.isEmpty]
  rw [if_neg (by simp [hne])]
  refine ⟨_, rfl, by simp [modelCopy], ?_⟩
  have hcid : (modelCopy r0
      { reminder_time := rt.map normalizeUTC
        message := msg
        is_active := act
        snooze_until := some none }).id = rid := by
    simp [modelCopy, hid]
  have := get_dictSet_self store (modelCopy r0
    { reminder_time := rt.map normalizeUTC
      message := msg
      is_active := act
      snooze_until := some none })
  rw [hcid] at this
  exact this

/-- Witness for C5's amended claim: the counterexample store, updating only
the message. -/
theorem update_with_none_snooze_clears_witness :
    ∃ r', (update_reminder
        [⟨"r1", none, ⟨true, 50⟩, none, ⟨true, 0⟩, true, some ⟨true, 50⟩, true⟩]
        "r1" none (some "x") none none).2 = some r' ∧
      r'.snooze_until = none ∧
      get_reminder (update_reminder
        [⟨"r1", none, ⟨true, 50⟩, none, ⟨true, 0⟩, true, some ⟨true, 50⟩, true⟩]
        "r1" none (some "x") none none).1 "r1" = some r' :=
  update_with_none_snooze_clears
    [⟨"r1", none, ⟨true, 50⟩, none, ⟨true, 0⟩, true, some ⟨true, 50⟩, true⟩]
    "r1" ⟨"r1", none, ⟨true, 50⟩, none, ⟨true, 0⟩, true, some ⟨true, 50⟩, true⟩
    none (some "x") none (by decide) (by decide)

theorem fireLoop_prefix_ok (notify : Reminder → Except Unit Unit)
    (pre : List Reminder) (rest : List Reminder) (store : ReminderStore)
    (em : List String) (hpre : ∀ x ∈ pre, notify x = .ok ()) :
    fireLoop notify store (pre ++ rest) em =
      fireLoop notify (deactAll store (pre.map Reminder.id)) rest
        (em ++ pre.map Reminder.id) := by
  induction pre generalizing store em with
  | nil => simp [deactAll]
  | cons r pre ih =>
      have hr : notify r = .ok () := hpre r (List.mem_cons_self r pre)
      simp only [List.cons_append, fireLoop, hr, List.append_eq]
      rw [ih _ _ (fun x hx => hpre x (List.mem_cons_of_mem r hx))]
      simp [deactAll_cons, deactivate, List.append_assoc]

/-- C6 counterexample: two active due reminders `"a"`, `"b"`; a notification
failure on `"a"` leaves the batch with no emission at all and `"b"` still
active, so the claim that one reminder's failure does not prevent the firing
and deactivation of its siblings is false. -/
theorem notify_failure_skips_siblings_cex :
    ((dueCheckPhase notifyFailA
        [⟨"a", none, ⟨true, 5⟩, none, ⟨true, 0⟩, true, none, false⟩,
          ⟨"b", none, ⟨true, 6⟩, none, ⟨true, 0⟩, true, none, false⟩] 10).2 =
      []) ∧
    ((get_reminder (dueCheckPhase notifyFailA
        [⟨"a", none, ⟨true, 5⟩, none, ⟨true, 0⟩, true, none, false⟩,
          ⟨"b", none, ⟨true, 6⟩, none, ⟨true, 0⟩, true, none, false⟩] 10).1
        "b").map Reminder.is_active = some true) := by decide

/-- C6 amended: a failure while firing one due reminder is caught at the
batch level, not per reminder: the due-check phase never propagates and the
reminders fired before the failing one keep their emission and deactivation,
but the failing reminder and every due reminder after it in the batch are
neither emitted nor deactivated in that cycle. -/
theorem notify_failure_batch_level
    (notify : Reminder → Except Unit Unit) (store : ReminderStore) (now : Int)
    (pre : List Reminder) (f : Reminder) (post : List Reminder)
    (hdue : check_due_reminders store now = .ok (pre ++ f :: post))
    (hpre : ∀ x ∈ pre, notify x = .ok ()) (hf : notify f = .error ()) :
    dueCheckPhase notify store now =
      (deactAll store (pre.map Reminder.id), pre.map Reminder.id) := by
  unfold dueCheckPhase
  rw [hdue]
  show fireLoop notify store (pre ++ f :: post) [] =
    (deactAll store (pre.map Reminder.id), pre.map Reminder.id)
  rw [fireLoop_prefix_ok notify pre (f :: post) store [] hpre]
  simp only [fireLoop, hf]
  simp

/-- Witness for C6's amended claim: the counterexample batch, failing on its
first reminder. -/
theorem notify_failure_batch_level_witness :
    dueCheckPhase notifyFailA
      [⟨"a", none, ⟨true, 5⟩, none, ⟨true, 0⟩, true, none, false⟩,
        ⟨"b", none, ⟨true, 6⟩, none, ⟨true, 0⟩, true, none, false⟩] 10 =
      (deactAll
        [⟨"a", none, ⟨true, 5⟩, none, ⟨true, 0⟩, true, none, false⟩,
          ⟨"b", none, ⟨true, 6⟩, none, ⟨true, 0⟩, true, none, false⟩]
        (([] : List Reminder).map Reminder.id),
        ([] : List Reminder).map Reminder.id) :=
  notify_failure_batch_level notifyFailA
    [⟨"a", none, ⟨true, 5⟩, none, ⟨true, 0⟩, true, none, false⟩,
      ⟨"b", none, ⟨true, 6⟩, none, ⟨true, 0⟩, true, none, false⟩] 10
    [] ⟨"a", none, ⟨true, 5⟩, none, ⟨true, 0⟩, true, none, false⟩
    [⟨"b", none, ⟨true, 6⟩, none, ⟨true, 0⟩, true, none, false⟩]
    rfl (fun _ hx => nomatch hx) rfl

theorem normalizeUTC_aware (t : DTime) : (normalizeUTC t).aware = true := by
  unfold normalizeUTC DTime.asUTC
  by_cases h : t.aware = true
  · rw [if_pos h]; exact h
  · rw [if_neg h]

/-- C7: a naive (timezone-less) timestamp passed as the due time to
`add_reminder` is stored interpreted as UTC (same clock value, made aware);
a due-check whose UTC instant is strictly after that value finds the
reminder due. -/
theorem naive_timestamp_normalized_utc
    (store : ReminderStore) (newId : String) (now0 tval now : Int)
    (email_id : Option String) (message : Option String)
    (hA : storeAware store = true) (hlt : tval < now) :
    ((add_reminder store newId now0 ⟨false, tval⟩ email_id message).2.reminder_time
      = ⟨true, tval⟩) ∧
    (∃ l, check_due_reminders
        (add_reminder store newId now0 ⟨false, tval⟩ email_id message).1 now =
          .ok l ∧
      (add_reminder store newId now0 ⟨false, tval⟩ email_id message).2 ∈ l) := by
  have hrt : (mkNewReminder newId now0 ⟨false, tval⟩ email_id message).reminder_time
      = ⟨true, tval⟩ := by
    simp [mkNewReminder, normalizeUTC, DTime.asUTC]
  refine ⟨hrt, ?_⟩
  have hstore : (add_reminder store newId now0 ⟨false, tval⟩ email_id message).1 =
      dictSet store (mkNewReminder newId now0 ⟨false, tval⟩ email_id message) := rfl
  have hA' : storeAware
      (dictSet store (mkNewReminder newId now0 ⟨false, tval⟩ email_id message)) =
      true :=
    storeAware_dictSet hA
      (by simp [Reminder.tzAware, mkNewReminder, normalizeUTC_aware])
  rw [hstore]
  refine ⟨_, check_due_eq_filter hA', ?_⟩
  refine List.mem_filter.mpr ⟨mem_dictSet_self _ _, ?_⟩
  simp [add_reminder, duePred, mkNewReminder, normalizeUTC, DTime.asUTC,
    le_of_lt hlt]

/-- Witness for C7: the naive timestamp 100 added to an empty store, checked
at instant 101. -/
theorem naive_timestamp_normalized_utc_witness :
    ((add_reminder [] "n" 0 ⟨false, 100⟩ none none).2.reminder_time =
      ⟨true, 100⟩) ∧
    (∃ l, check_due_reminders (add_reminder [] "n" 0 ⟨false, 100⟩ none none).1
        101 = .ok l ∧
      (add_reminder [] "n" 0 ⟨false, 100⟩ none none).2 ∈ l) :=
  naive_timestamp_normalized_utc [] "n" 0 100 101 none none
    (by decide) (by decide)

theorem start_spec (u : SchedState)
    (h : u.jobs.count EMAIL_FETCH_JOB_ID ≤ 1) :
    (start_scheduler_tasks u).running = true ∧
    (start_scheduler_tasks u).jobs.count EMAIL_FETCH_JOB_ID = 1 := by
  by_cases hg : u.get_job EMAIL_FETCH_JOB_ID = true
  · have hmem : EMAIL_FETCH_JOB_ID ∈ u.jobs := by
      obtain ⟨x, hx, hxe⟩ := List.any_eq_true.mp hg
      exact (of_decide_eq_true hxe) ▸ hx
    have hcount : u.jobs.count EMAIL_FETCH_JOB_ID = 1 :=
      Nat.le_antisymm h (List.count_pos_iff.mpr hmem)
    by_cases hr : u.running = true
    · unfold start_scheduler_tasks
      rw [if_pos (by simp [hr, hg])]
      exact ⟨hr, hcount⟩
    · unfold start_scheduler_tasks
      rw [if_neg (by simp [hr])]
      simp [hg, hr, hcount]
  · have hmem : EMAIL_FETCH_JOB_ID ∉ u.jobs := fun hm =>
      hg (List.any_eq_true.mpr ⟨_, hm, by simp⟩)
    have hgf : u.get_job EMAIL_FETCH_JOB_ID = false := Bool.eq_false_iff.mpr hg
    have hcount0 : u.jobs.count EMAIL_FETCH_JOB_ID = 0 :=
      List.count_eq_zero.mpr hmem
    unfold start_scheduler_tasks
    rw [if_neg (by simp [hgf])]
    by_cases hr : u.running = true <;>
      simp [hgf, hr, SchedState.add_job, List.count_append, hcount0]

theorem start_noop (v : SchedState) (hr : v.running = true)
    (hg : v.get_job EMAIL_FETCH_JOB_ID = true) :
    start_scheduler_tasks v = v := by
  unfold start_scheduler_tasks
  rw [if_pos (by simp [hr, hg])]

/-- C8: the scheduler lifecycle is idempotent with at most one registration
of the periodic cycle job: starting twice in a row leaves the
`email_fetch_job` id registered exactly once, and stopping an already
stopped scheduler is a no-op. -/
theorem scheduler_lifecycle_idempotent (s t : SchedState)
    (h1 : s.jobs.count EMAIL_FETCH_JOB_ID ≤ 1) (h2 : t.running = false) :
    ((start_scheduler_tasks (start_scheduler_tasks s)).jobs.count
      EMAIL_FETCH_JOB_ID = 1) ∧
    stop_scheduler_tasks t = t := by
  obtain ⟨hrun, hcount⟩ := start_spec s h1
  have hmem : EMAIL_FETCH_JOB_ID ∈ (start_scheduler_tasks s).jobs :=
    List.count_pos_iff.mp (by rw [hcount]; exact Nat.one_pos)
  have hg : (start_scheduler_tasks s).get_job EMAIL_FETCH_JOB_ID = true :=
    List.any_eq_true.mpr ⟨_, hmem, by simp⟩
  constructor
  · rw [start_noop _ hrun hg]
    exact hcount
  · unfold stop_scheduler_tasks
    rw [if_neg (by simp [h2])]

/-- Witness for C8: a stopped scheduler with no registered jobs. -/
theorem scheduler_lifecycle_idempotent_witness :
    ((start_scheduler_tasks (start_scheduler_tasks ⟨false, []⟩)).jobs.count
      EMAIL_FETCH_JOB_ID = 1) ∧
    stop_scheduler_tasks ⟨false, []⟩ = ⟨false, []⟩ :=
  scheduler_lifecycle_idempotent ⟨false, []⟩ ⟨false, []⟩ (by decide) (by decide)

/-- C9 counterexample: two reminders inserted with due times 10 then 5; the
unfiltered list returns them in insertion order `[10, 5]`, which is not
ascending by due time, so the claim that the unfiltered list is ordered by
`reminder_time` ascending is false. -/
theorem list_unfiltered_not_sorted_cex :
    (((get_all_reminders (addAll 0 []
        [("a", ⟨true, 10⟩), ("b", ⟨true, 5⟩)]) false).map
      (fun r => r.reminder_time.val)) = [10, 5]) ∧
    ¬ List.Pairwise (fun a b : Int => a ≤ b)
      ((get_all_reminders (addAll 0 []
        [("a", ⟨true, 10⟩), ("b", ⟨true, 5⟩)]) false).map
        (fun r => r.reminder_time.val)) := by decide

/-- C9 amended: the unfiltered list operation returns the stored reminders in
dict insertion order — a sequence of `add_reminder` calls with fresh ids
yields exactly the created records in call order, with no sorting by
`reminder_time`. -/
theorem list_unfiltered_insertion_order (now : Int) (store : ReminderStore)
    (reqs : List (String × DTime))
    (hfresh : ∀ p ∈ reqs, p.1 ∉ storeIds store)
    (hnodup : (reqs.map Prod.fst).Nodup) :
    get_all_reminders (addAll now store reqs) false =
      store ++ reqs.map (fun p => mkNewReminder p.1 now p.2 none none) := by
  induction reqs generalizing store with
  | nil => simp [addAll, get_all_reminders]
  | cons p rest ih =>
      obtain ⟨i, t⟩ := p
      have hfresh0 : i ∉ storeIds store := hfresh (i, t) (List.mem_cons_self _ _)
      have happ : (add_reminder store i now t none none).1 =
          store ++ [mkNewReminder i now t none none] := by
        show dictSet store (mkNewReminder i now t none none) = _
        unfold dictSet
        rw [if_neg]
        intro hany
        obtain ⟨x, hx, hxe⟩ := List.any_eq_true.mp hany
        exact hfresh0 (List.mem_map.mpr ⟨x, hx, of_decide_eq_true hxe⟩)
      have hhead : i ∉ rest.map Prod.fst := (List.nodup_cons.mp hnodup).1
      have hfresh' : ∀ q ∈ rest,
          q.1 ∉ storeIds (store ++ [mkNewReminder i now t none none]) := by
        intro q hq hmem
        have hids : storeIds (store ++ [mkNewReminder i now t none none]) =
            storeIds store ++ [i] := by
          simp [storeIds, mkNewReminder]
        rw [hids] at hmem
        rcases List.mem_append.mp hmem with hm | hm
        · exact hfresh q (List.mem_cons_of_mem _ hq) hm
        · exact hhead ((List.mem_singleton.mp hm) ▸
            List.mem_map.mpr ⟨q, hq, rfl⟩)
      rw [addAll, happ, ih _ hfresh' (List.nodup_cons.mp hnodup).2]
      simp [get_all_reminders]

/-- Witness for C9's amended claim at the counterexample inputs. -/
theorem list_unfiltered_insertion_order_witness :
    get_all_reminders (addAll 0 [] [("a", ⟨true, 10⟩), ("b", ⟨true, 5⟩)]) false =
      [] ++ [("a", (⟨true, 10⟩ : DTime)), ("b", (⟨true, 5⟩ : DTime))].map
        (fun p => mkNewReminder p.1 0 p.2 none none) :=
  list_unfiltered_insertion_order 0 [] [("a", ⟨true, 10⟩), ("b", ⟨true, 5⟩)]
    (by decide) (by decide)

/-- C10: every store whose reminders carry timezone-aware `reminder_time`
(and aware `snooze_until` when set) keeps that invariant under
`add_reminder`, `update_reminder` and `delete_reminder` — both functions
normalize naive inputs to UTC before storing — and on such a store
`check_due_reminders` never raises the naive/aware comparison `TypeError`:
it returns a due list. -/
theorem store_tz_invariant (store : ReminderStore) (now : Int)
    (h : storeAware store = true) :
    (∀ (newId : String) (now0 : Int) (rt : DTime) (eid : Option String)
        (msg : Option String),
      storeAware (add_reminder store newId now0 rt eid msg).1 = true) ∧
    (∀ (rid : String) (rt : Option DTime) (msg : Option String)
        (act : Option Bool) (snz : Option DTime),
      storeAware (update_reminder store rid rt msg act snz).1 = true) ∧
    (∀ rid : String, storeAware (delete_reminder store rid).1 = true) ∧
    (∃ l, check_due_reminders store now = .ok l) := by
  refine ⟨?_, ?_, ?_, ⟨_, check_due_eq_filter h⟩⟩
  · intro newId now0 rt eid msg
    exact storeAware_dictSet h
      (by simp [Reminder.tzAware, mkNewReminder, normalizeUTC_aware])
  · intro rid rt msg act snz
    unfold update_reminder
    cases hg : get_reminder store rid with
    | none => exact h
    | some r0 =>
        have hr0 : r0.tzAware = true :=
          storeAware_mem h (get_reminder_spec hg).1
        rw [Reminder.tzAware, Bool.and_eq_true] at hr0
        show storeAware
          (if (buildUpdate r0 rt msg act snz).isEmpty = true then
            (store, some r0)
          else (dictSet store (modelCopy r0 (buildUpdate r0 rt msg act snz)),
            some (modelCopy r0 (buildUpdate r0 rt msg act snz)))).1 = true
        split
        · exact h
        · apply storeAware_dictSet h
          rw [Reminder.tzAware, Bool.and_eq_true]
          cases snz with
          | some sv =>
              constructor <;> simp [buildUpdate, modelCopy, normalizeUTC_aware]
          | none =>
              by_cases hc : (!r0.snoozeTracked || r0.snooze_until.isSome) = true
              · constructor
                · cases rt <;>
                    simp [buildUpdate, modelCopy, hc, normalizeUTC_aware, hr0.1]
                · simp [buildUpdate, modelCopy, hc]
              · constructor
                · cases rt <;>
                    simp [buildUpdate, modelCopy, hc, normalizeUTC_aware, hr0.1]
                · simp [buildUpdate, modelCopy, hc, hr0.2]
  · intro rid
    unfold delete_reminder
    split
    · rw [storeAware, List.all_eq_true]
      intro x hx
      exact storeAware_mem h (List.mem_filter.mp hx).1
    · exact h

/-- Witness for C10 at a concrete aware one-reminder store, `now = 10`. -/
theorem store_tz_invariant_witness :
    (∀ (newId : String) (now0 : Int) (rt : DTime) (eid : Option String)
        (msg : Option String),
      storeAware (add_reminder
        [⟨"r", none, ⟨true, 5⟩, none, ⟨true, 0⟩, true, none, false⟩]
        newId now0 rt eid msg).1 = true) ∧
    (∀ (rid : String) (rt : Option DTime) (msg : Option String)
        (act : Option Bool) (snz : Option DTime),
      storeAware (update_reminder
        [⟨"r", none, ⟨true, 5⟩, none, ⟨true, 0⟩, true, none, false⟩]
        rid rt msg act snz).1 = true) ∧
    (∀ rid : String, storeAware (delete_reminder
        [⟨"r", none, ⟨true, 5⟩, none, ⟨true, 0⟩, true, none, false⟩]
        rid).1 = true) ∧
    (∃ l, check_due_reminders
        [⟨"r", none, ⟨true, 5⟩, none, ⟨true, 0⟩, true, none, false⟩] 10 =
      .ok l) :=
  store_tz_invariant
    [⟨"r", none, ⟨true, 5⟩, none, ⟨true, 0⟩, true, none, false⟩] 10 (by decide)

end Serina
